import Mathlib

/-!
Shallow embedding of `src/advanced-vector/vector.h` (template classes
`RawMemory<T>` and `Vector<T>`).

The observable state of a `Vector<T>` is the pair (live elements, capacity):
slots `[0, size)` of the raw buffer hold live elements, slots `[size, capacity)`
are uninitialized.  We model it as a list of live elements together with the
capacity of the owned `RawMemory` buffer.  `size_` is the length of the list.

Machine integers (`size_t`) never overflow in the operations modelled here
(all arithmetic is on small counts), so they are modelled as `Nat`.
-/

namespace AdvVec

/-- Observable state of `Vector<T>`: live elements `[0, size)` and the
capacity of the owned `RawMemory<T>` buffer. -/
structure Vec (α : Type) where
  elems : List α
  cap : Nat
deriving DecidableEq, Repr

variable {α : Type}

/-- Model of `Size()` — the number of live elements (`size_`). -/
def Vec.size (v : Vec α) : Nat := v.elems.length

/-- Model of `Vector()` — default constructed: `size_ = 0`, `RawMemory` default: capacity 0. -/
def emptyVec : Vec α := ⟨[], 0⟩

/-- The new capacity chosen by `PlaceWithRealloc`:
`RawMemory<T> new_data(size_ == 0 ? 1 : size_ * 2)` (vector.h:297). -/
def growCap (n : Nat) : Nat := if n = 0 then 1 else n * 2

/-- Model of `PlaceBackWithoutRealloc(args...)` (vector.h:286-291): if
`data_.Capacity() >= size_ + 1`, placement-new the element at `end()`;
otherwise do nothing. -/
def placeBackWithoutRealloc (v : Vec α) (x : α) : Vec α :=
  if v.cap ≥ v.size + 1 then { v with elems := v.elems ++ [x] } else v

/-- Model of `PlaceWithRealloc(pos, args...)` (vector.h:294-319), success path, with
infallible element transfer: if `data_.Capacity() < size_ + 1`, allocate a
new buffer of `growCap size_`, construct the element at slot `pos_n`,
transfer `[0, pos_n)` to the front and `[pos_n, size_)` to `pos_n + 1`
(`MoveOrCopy`), destroy the originals and swap buffers.  Otherwise nothing
happens. -/
def placeWithRealloc (v : Vec α) (pos : Nat) (x : α) : Vec α :=
  if v.cap < v.size + 1 then
    { elems := v.elems.take pos ++ x :: v.elems.drop pos, cap := growCap v.size }
  else v

/-- Model of `EmplaceBack(args...)` (vector.h:196-206): place in the existing buffer if
`Capacity() >= size_ + 1`, else reallocate placing at `cend()`; `++size_`;
return `*(end() - 1)`, the new last element. -/
def emplaceBack [Inhabited α] (v : Vec α) (x : α) : Vec α × α :=
  let w := if v.cap ≥ v.size + 1 then placeBackWithoutRealloc v x
           else placeWithRealloc v v.size x
  (w, w.elems.getD (w.size - 1) default)

/-- Model of `PushBack(value)` (vector.h:208-214): delegates to `EmplaceBack`. -/
def pushBack [Inhabited α] (v : Vec α) (x : α) : Vec α := (emplaceBack v x).1

/-- A sequence of `PushBack` calls, in order. -/
def pushSeq [Inhabited α] (v : Vec α) (xs : List α) : Vec α := xs.foldl pushBack v

/-- Model of `std::move_backward(b + first, b + last, b + dlast)` on a buffer modelled
as a list: the range `[first, last)` is copied to the range ending at `dlast`
(destination `[dlast - (last - first), dlast)`), elements outside the
destination range are untouched. -/
def moveBackwardIdx [Inhabited α] (b : List α) (first last dlast : Nat) : List α :=
  (List.range b.length).map fun i =>
    if dlast - (last - first) ≤ i ∧ i < dlast then b.getD (i - (dlast - last)) default
    else b.getD i default

/-- Model of `std::move(b + first, b + last, b + dfirst)` on a buffer modelled as a
list: the range `[first, last)` is copied to the range starting at `dfirst`,
elements outside the destination range are untouched. -/
def moveForwardIdx [Inhabited α] (b : List α) (first last dfirst : Nat) : List α :=
  (List.range b.length).map fun i =>
    if dfirst ≤ i ∧ i < dfirst + (last - first) then b.getD (i + (first - dfirst)) default
    else b.getD i default

/-- The in-place middle-insert dance of `Emplace` (vector.h:225-230) on the
live zone `b` (`b.length = size_`), for `pos ≠ end()`:
`T temp(args...)`; `uninitialized_move_n(end() - 1, 1, end())` constructs a
copy of the last element in the slot past the end;
`move_backward(begin() + pos_n, end() - 1, end())` shifts `[pos_n, size_ - 1)`
right by one; `*(begin() + pos_n) = std::move(temp)`. -/
def emplaceMid [Inhabited α] (b : List α) (pos : Nat) (x : α) : List α :=
  let b1 := b ++ [b.getD (b.length - 1) default]
  let b2 := moveBackwardIdx b1 pos (b.length - 1) b.length
  b2.set pos x

/-- Model of `Emplace(pos, args...)` (vector.h:221-240): returns the new state and the
index of the returned iterator (`begin() + pos_n`). -/
def emplace [Inhabited α] (v : Vec α) (pos : Nat) (x : α) : Vec α × Nat :=
  if v.cap > v.size then
    if pos ≠ v.size then ({ v with elems := emplaceMid v.elems pos x }, pos)
    else (placeBackWithoutRealloc v x, pos)
  else (placeWithRealloc v pos x, pos)

/-- Model of `Insert(pos, value)` (vector.h:250-256): both overloads delegate to
`Emplace`. -/
def insert [Inhabited α] (v : Vec α) (pos : Nat) (x : α) : Vec α × Nat :=
  emplace v pos x

/-- Model of `Erase(pos)` (vector.h:242-248): `std::move(begin() + pos_n + 1, end(),
begin() + pos_n)`; `destroy_at(end() - 1)`; `--size_`; returns the iterator
at index `pos_n`. -/
def erase [Inhabited α] (v : Vec α) (pos : Nat) : Vec α × Nat :=
  let b1 := moveForwardIdx v.elems (pos + 1) v.size pos
  ({ elems := b1.take (v.size - 1), cap := v.cap }, pos)

/-- Result of `PopBack()` (vector.h:216-219).  `destroyCalled` records that
`std::destroy_n(end() - 1, 1)` executed (it always does — it precedes the
`size_ > 0` check); `destroyedSlotLive` records whether the slot `end() - 1`
held a live element at that moment (true iff `size_ > 0`). -/
structure PopBackResult (α : Type) where
  vec : Vec α
  destroyCalled : Bool
  destroyedSlotLive : Bool
deriving DecidableEq, Repr

/-- Model of `PopBack()` (vector.h:216-219): `std::destroy_n(end() - 1, 1);`
unconditionally, then `if (size_ > 0) --size_;`. -/
def popBack (v : Vec α) : PopBackResult α :=
  let vec := if v.size > 0 then { v with elems := v.elems.dropLast } else v
  ⟨vec, true, decide (v.size > 0)⟩

/-- Model of `Vector(Vector&& other)` (vector.h:106-110): `size_ = other.size_;
data_ = std::move(other.data_); other.size_ = 0;` — `RawMemory`'s move
constructor (vector.h:21-26) nulls the source buffer and zeroes its
capacity.  Returns (destination, source-afterwards). -/
def moveConstruct (other : Vec α) : Vec α × Vec α :=
  (⟨other.elems, other.cap⟩, ⟨[], 0⟩)

/-- Model of `operator=(Vector&& rhs)` (vector.h:112-117): identical ownership
transfer; `RawMemory::operator=(RawMemory&&)` (vector.h:27-33) nulls the
source.  Returns (destination-afterwards, source-afterwards). -/
def moveAssign (lhs rhs : Vec α) : Vec α × Vec α :=
  (⟨rhs.elems, rhs.cap⟩, ⟨[], 0⟩)

/-- Element-operation counts performed by the copy-assignment operator. -/
structure AssignOps where
  assigned : Nat
  copyConstructed : Nat
  destroyed : Nat
  realloc : Bool
deriving DecidableEq, Repr

/-- Model of `operator=(const Vector& rhs)` (vector.h:134-153).  `isSelf` is the
pointer-identity test `this != &rhs` (negated): when true the body is
skipped entirely.  Branches:
* `rhs.size_ > data_.Capacity()`: `Vector rhs_copy(rhs); Swap(rhs_copy);`
  — copy-construct `rhs.size_` elements into a fresh buffer of capacity
  `rhs.size_` (copy constructor, vector.h:99-104), swap; the temporary's
  destructor destroys the old `size_` elements;
* `rhs.size_ >= size_`: `std::copy` assigns the first `size_` elements,
  `uninitialized_copy_n` copy-constructs the remaining `rhs.size_ - size_`;
* else: `std::copy` assigns the first `rhs.size_` elements, `destroy_n`
  destroys the trailing `size_ - rhs.size_`.
Finally `size_ = rhs.size_`. -/
def copyAssign (isSelf : Bool) (lhs rhs : Vec α) : Vec α × AssignOps :=
  if isSelf then (lhs, ⟨0, 0, 0, false⟩)
  else if rhs.size > lhs.cap then
    (⟨rhs.elems, rhs.size⟩, ⟨0, rhs.size, lhs.size, true⟩)
  else if rhs.size ≥ lhs.size then
    (⟨rhs.elems.take lhs.size ++ rhs.elems.drop lhs.size, lhs.cap⟩,
      ⟨lhs.size, rhs.size - lhs.size, 0, false⟩)
  else
    (⟨rhs.elems.take rhs.size, lhs.cap⟩, ⟨rhs.size, 0, lhs.size - rhs.size, false⟩)

/-! ### The move-or-copy transfer choice (`MoveOrCopy`, vector.h:276-283)

`if constexpr (std::is_nothrow_move_constructible_v<T> ||
!std::is_copy_constructible_v<T>)` selects `uninitialized_move_n`, else
`uninitialized_copy_n`.  The two traits are compile-time properties of the
element type. -/

/-- The two compile-time traits of the element type that `MoveOrCopy` and
`Reserve` consult. -/
structure Traits where
  nothrowMoveConstructible : Bool
  copyConstructible : Bool
deriving DecidableEq, Repr

/-- How existing elements are transferred into a new buffer. -/
inductive TransferMode where
  | moveT
  | copyT
deriving DecidableEq, Repr

/-- The branch taken by `MoveOrCopy` (vector.h:277): move iff
`is_nothrow_move_constructible_v<T> || !is_copy_constructible_v<T>`. -/
def moveOrCopyMode (t : Traits) : TransferMode :=
  if t.nothrowMoveConstructible || !t.copyConstructible then .moveT else .copyT

/-- Model of `Reserve(new_capacity)` (vector.h:119-132), instrumented with the
transfer mode used: early-return if `new_capacity <= data_.Capacity()`
(mode `none`); otherwise allocate, transfer all `size_` elements per the
same `if constexpr` as `MoveOrCopy` (vector.h:124-129), destroy originals,
swap. -/
def reserveInstr (t : Traits) (v : Vec α) (newCapacity : Nat) :
    Vec α × Option TransferMode :=
  if newCapacity ≤ v.cap then (v, none)
  else (⟨v.elems, newCapacity⟩, some (moveOrCopyMode t))

/-- Model of `EmplaceBack` (vector.h:196-206) instrumented with the transfer mode of
its reallocating branch (`PlaceWithRealloc` calls `MoveOrCopy`,
vector.h:300,307); `none` when no reallocation happens. -/
def emplaceBackInstr (t : Traits) (v : Vec α) (x : α) :
    Vec α × Option TransferMode :=
  if v.cap ≥ v.size + 1 then (placeBackWithoutRealloc v x, none)
  else (⟨v.elems ++ [x], growCap v.size⟩, some (moveOrCopyMode t))

/-! ### Fallible copy transfer (exception safety, `PlaceWithRealloc` /
`Reserve`)

For an element type whose move constructor may throw and which is copy
constructible, the `if constexpr` in `MoveOrCopy` / `Reserve` instantiates
only the `std::uninitialized_copy_n` branch.  A fallible copy constructor is
modelled as `copyFn : α → Option α` (`none` = the copy constructor threw).
-/

/-- Model of `std::uninitialized_copy_n(src, n, dst)` with a fallible copy
constructor.  On success returns the list of constructed copies.  If a copy
throws, the algorithm destroys the copies it has already constructed and
rethrows: `Except.error ws` where `ws` are those constructed-then-destroyed
copies. -/
def uninitCopyN (copyFn : α → Option α) : List α → Except (List α) (List α)
  | [] => Except.ok []
  | x :: xs =>
    match copyFn x with
    | none => Except.error []
    | some y =>
      match uninitCopyN copyFn xs with
      | Except.ok ys => Except.ok (y :: ys)
      | Except.error ws => Except.error (y :: ws)

/-- Outcome of a reallocating operation with fallible copies.
`vec` is the vector's externally observable state after the call returns or
after the exception propagates out.  `newConstructed` / `newDestroyed`
record the elements constructed in / destroyed in the new buffer before the
operation ended; `newReleased` records whether the new buffer's storage was
released (by `RawMemory`'s destructor when the exception propagates). -/
structure ReallocOutcome (α : Type) where
  threw : Bool
  vec : Vec α
  newConstructed : List α
  newDestroyed : List α
  newReleased : Bool
deriving DecidableEq, Repr

/-- Model of `Reserve(new_capacity)` (vector.h:119-132) for a copy-transferring
element type, with fallible copies.  On the copy branch nothing mutates
`*this` before `std::destroy_n`/`Swap`: if `uninitialized_copy_n` throws,
the partial copies are destroyed by the algorithm itself, `new_data`'s
destructor releases the buffer, and the exception propagates with `*this`
untouched. -/
def reserveCopyF (copyFn : α → Option α) (v : Vec α) (newCapacity : Nat) :
    ReallocOutcome α :=
  if newCapacity ≤ v.cap then ⟨false, v, [], [], false⟩
  else
    match uninitCopyN copyFn v.elems with
    | Except.error ws => ⟨true, v, ws, ws, true⟩
    | Except.ok ys => ⟨false, ⟨ys, newCapacity⟩, ys, [], false⟩

/-- Model of `PlaceWithRealloc(pos, args...)` (vector.h:294-319) for a
copy-transferring element type, with fallible copies, the new element `x`
already constructed at slot `pos_n` (vector.h:298).  First `try`: transfer
`[0, pos_n)`; on throw the `catch` destroys `elem` and rethrows
(vector.h:302-305).  Second `try`: transfer `[pos_n, size_)` to
`pos_n + 1`; on throw the `catch` destroys `elem`, then
`destroy_n(new_data.GetAddress(), pos_n)` destroys the transferred head,
and rethrows (vector.h:309-313).  In both cases `new_data`'s destructor
releases the buffer and `*this` was never touched.  On success the
originals are destroyed and the buffers swapped (vector.h:315-316). -/
def placeWithReallocCopyF (copyFn : α → Option α) (v : Vec α) (pos : Nat)
    (x : α) : ReallocOutcome α :=
  if v.cap < v.size + 1 then
    match uninitCopyN copyFn (v.elems.take pos) with
    | Except.error ws => ⟨true, v, x :: ws, ws ++ [x], true⟩
    | Except.ok hd =>
      match uninitCopyN copyFn (v.elems.drop pos) with
      | Except.error ws => ⟨true, v, x :: (hd ++ ws), (ws ++ [x]) ++ hd, true⟩
      | Except.ok tl =>
        ⟨false, ⟨hd ++ x :: tl, growCap v.size⟩, x :: (hd ++ tl), [], false⟩
  else ⟨false, v, [], [], false⟩

/-! ## Helper lemmas -/

lemma pushBack_elems [Inhabited α] (v : Vec α) (x : α) :
    (pushBack v x).elems = v.elems ++ [x] := by
  unfold pushBack emplaceBack placeBackWithoutRealloc placeWithRealloc
  by_cases h : v.cap ≥ v.size + 1
  · simp [h]
  · have h' : v.cap < v.size + 1 := Nat.lt_of_not_le h
    simp only [h, if_neg, if_false, if_pos h']
    simp [Vec.size, List.take_length, List.drop_length]

lemma pushBack_cap_cases [Inhabited α] (v : Vec α) (x : α) :
    (v.cap ≥ v.size + 1 ∧ (pushBack v x).cap = v.cap) ∨
    (v.cap < v.size + 1 ∧ (pushBack v x).cap = growCap v.size) := by
  unfold pushBack emplaceBack placeBackWithoutRealloc placeWithRealloc
  by_cases h : v.cap ≥ v.size + 1
  · left
    exact ⟨h, by simp [h]⟩
  · right
    refine ⟨Nat.lt_of_not_le h, ?_⟩
    simp [h, Nat.lt_of_not_le h]

lemma pushBack_size [Inhabited α] (v : Vec α) (x : α) :
    (pushBack v x).size = v.size + 1 := by
  simp [Vec.size, pushBack_elems]

lemma pushBack_size_le_cap [Inhabited α] (v : Vec α) (x : α) :
    (pushBack v x).size ≤ (pushBack v x).cap := by
  rcases pushBack_cap_cases v x with ⟨h, hc⟩ | ⟨h, hc⟩
  · rw [hc, pushBack_size]
    exact h
  · rw [hc, pushBack_size, growCap]
    rcases Nat.eq_zero_or_pos v.size with h0 | h0
    · simp [h0]
    · have : ¬ v.size = 0 := Nat.pos_iff_ne_zero.mp h0
      simp only [this, if_false]
      omega

lemma pushBack_cap_mono [Inhabited α] (v : Vec α) (x : α) :
    v.cap ≤ (pushBack v x).cap := by
  rcases pushBack_cap_cases v x with ⟨h, hc⟩ | ⟨h, hc⟩
  · omega
  · rw [hc, growCap]
    rcases Nat.eq_zero_or_pos v.size with h0 | h0
    · simp [h0]
      omega
    · have : ¬ v.size = 0 := Nat.pos_iff_ne_zero.mp h0
      simp only [this, if_false]
      omega

lemma pushSeq_elems [Inhabited α] (xs : List α) (v : Vec α) :
    (pushSeq v xs).elems = v.elems ++ xs := by
  induction xs generalizing v with
  | nil => simp [pushSeq]
  | cons y ys ih =>
    show (pushSeq (pushBack v y) ys).elems = v.elems ++ y :: ys
    rw [ih, pushBack_elems]
    simp

lemma pushBack_pow2 [Inhabited α] (v : Vec α) (x : α) (hinv : v.size ≤ v.cap)
    (hp : ∃ k, v.cap = 2 ^ k) : ∃ k, (pushBack v x).cap = 2 ^ k := by
  rcases pushBack_cap_cases v x with ⟨_, hc⟩ | ⟨h, hc⟩
  · rw [hc]
    exact hp
  · rcases hp with ⟨k, hk⟩
    have hcap : v.cap = v.size := by omega
    rw [hc, growCap]
    rcases Nat.eq_zero_or_pos v.size with h0 | h0
    · exact ⟨0, by simp [h0]⟩
    · have hne : ¬ v.size = 0 := Nat.pos_iff_ne_zero.mp h0
      refine ⟨k + 1, ?_⟩
      simp only [hne, if_false]
      rw [← hcap, hk]
      ring

lemma pushSeq_pow2 [Inhabited α] (xs : List α) (v : Vec α) (hinv : v.size ≤ v.cap)
    (hp : ∃ k, v.cap = 2 ^ k) : ∃ k, (pushSeq v xs).cap = 2 ^ k := by
  induction xs generalizing v with
  | nil => exact hp
  | cons y ys ih =>
    exact ih (pushBack v y) (pushBack_size_le_cap v y) (pushBack_pow2 v y hinv hp)

lemma emplaceBack_ret [Inhabited α] (v : Vec α) (x : α) :
    (emplaceBack v x).2 = x := by
  have he : (emplaceBack v x).1.elems = v.elems ++ [x] := pushBack_elems v x
  show (emplaceBack v x).1.elems.getD ((emplaceBack v x).1.size - 1) default = x
  rw [Vec.size, he]
  simp [List.getD_eq_getElem?_getD, List.getElem?_concat_length]

/-! ## The claims -/

/-- Claim C2: for every vector and every sequence of `PushBack` calls, after
each call the size has increased by exactly 1, `capacity ≥ size` holds, and
the elements at `[0, size)` equal the previously held elements followed by
the pushed values, in push order; `EmplaceBack` returns (a reference to) the
newly constructed last element. -/
theorem pushBack_spec [Inhabited α] (v : Vec α) (x : α) (xs : List α) :
    (pushBack v x).elems = v.elems ++ [x] ∧
    (pushBack v x).size = v.size + 1 ∧
    (pushBack v x).size ≤ (pushBack v x).cap ∧
    (emplaceBack v x).2 = x ∧
    (pushSeq v xs).elems = v.elems ++ xs :=
  ⟨pushBack_elems v x, pushBack_size v x, pushBack_size_le_cap v x,
    emplaceBack_ret v x, pushSeq_elems xs v⟩

/-- Claim C4: when a push must reallocate (`capacity < size + 1`), the new
capacity is exactly `max 1 (size * 2)`; capacity never decreases across a
push; pushing onto an initially empty vector only ever yields power-of-two
capacities; the observed capacity sequence for five pushes from empty is
`1, 2, 4, 4, 8`. -/
theorem capacity_growth_spec [Inhabited α] (v : Vec α) (x : α) (xs : List α)
    (hxs : xs ≠ []) :
    (v.cap < v.size + 1 → (pushBack v x).cap = max 1 (v.size * 2)) ∧
    v.cap ≤ (pushBack v x).cap ∧
    (∃ k, (pushSeq emptyVec xs).cap = 2 ^ k) ∧
    (List.range 5).map
        (fun i => (pushSeq (emptyVec : Vec Nat) ([10, 20, 30, 40, 50].take (i + 1))).cap)
      = [1, 2, 4, 4, 8] := by
  refine ⟨?_, pushBack_cap_mono v x, ?_, by decide⟩
  · intro h
    rcases pushBack_cap_cases v x with ⟨h', _⟩ | ⟨_, hc⟩
    · omega
    · rw [hc, growCap]
      rcases Nat.eq_zero_or_pos v.size with h0 | h0
      · simp [h0]
      · have hne : ¬ v.size = 0 := Nat.pos_iff_ne_zero.mp h0
        simp only [hne, if_false]
        omega
  · rcases xs with _ | ⟨y, ys⟩
    · exact absurd rfl hxs
    · show ∃ k, (pushSeq (pushBack emptyVec y) ys).cap = 2 ^ k
      refine pushSeq_pow2 ys (pushBack emptyVec y) (pushBack_size_le_cap _ y) ⟨0, ?_⟩
      rcases pushBack_cap_cases (emptyVec : Vec α) y with ⟨h, _⟩ | ⟨_, hc⟩
      · simp [emptyVec, Vec.size] at h
      · rw [hc]
        simp [growCap, emptyVec, Vec.size]

/-- Witness for `capacity_growth_spec` at a concrete full vector and a
concrete push sequence. -/
theorem capacity_growth_spec_witness :
    (pushBack (⟨[5, 6], 2⟩ : Vec Nat) 7).cap
        = max 1 ((⟨[5, 6], 2⟩ : Vec Nat).size * 2) ∧
    ∃ k, (pushSeq (emptyVec : Vec Nat) [10, 20]).cap = 2 ^ k :=
  ⟨(capacity_growth_spec ⟨[5, 6], 2⟩ 7 [10, 20] (by decide)).1 (by decide),
    (capacity_growth_spec ⟨[5, 6], 2⟩ 7 [10, 20] (by decide)).2.2.1⟩

/-- Claim C3: during a reallocation (`Reserve` or a reallocating
`EmplaceBack`/`Emplace`/`Insert`, which share `MoveOrCopy`'s `if constexpr`),
elements are transferred by move iff the type is nothrow-move-constructible
or not copy-constructible, and by copy otherwise; the chosen mode is a
function of the type's traits alone — any two reallocations at the same
element type use the same mode regardless of runtime state. -/
theorem transfer_mode_spec (t : Traits) (v w : Vec α) (n : Nat) (x y : α) :
    (v.cap < n → (reserveInstr t v n).2 =
      some (if t.nothrowMoveConstructible || !t.copyConstructible
            then TransferMode.moveT else TransferMode.copyT)) ∧
    (v.cap < v.size + 1 → (emplaceBackInstr t v x).2 =
      some (if t.nothrowMoveConstructible || !t.copyConstructible
            then TransferMode.moveT else TransferMode.copyT)) ∧
    (∀ mv mw, (reserveInstr t v n).2 = some mv →
      (emplaceBackInstr t w y).2 = some mw → mv = mw) := by
  refine ⟨?_, ?_, ?_⟩
  · intro h
    have h' : ¬ n ≤ v.cap := by omega
    simp [reserveInstr, h', moveOrCopyMode]
  · intro h
    have h' : ¬ v.cap ≥ v.size + 1 := by omega
    simp [emplaceBackInstr, h', moveOrCopyMode]
  · intro mv mw hv hw
    by_cases h1 : n ≤ v.cap
    · simp [reserveInstr, h1] at hv
    · by_cases h2 : w.cap ≥ w.size + 1
      · simp [emplaceBackInstr, h2] at hw
      · simp [reserveInstr, h1] at hv
        simp [emplaceBackInstr, h2] at hw
        rw [← hv, ← hw]

/-- Witness for `transfer_mode_spec`: a copyable type with a throwing move,
at a full one-element vector. -/
theorem transfer_mode_spec_witness :
    ((reserveInstr ⟨false, true⟩ (⟨[1], 1⟩ : Vec Nat) 3).2 =
      some (if (false : Bool) || !(true : Bool)
            then TransferMode.moveT else TransferMode.copyT)) ∧
    TransferMode.copyT = TransferMode.copyT :=
  ⟨(transfer_mode_spec ⟨false, true⟩ ⟨[1], 1⟩ ⟨[2, 3], 2⟩ 3 0 7).1 (by decide),
    (transfer_mode_spec ⟨false, true⟩ (⟨[1], 1⟩ : Vec Nat) ⟨[2, 3], 2⟩ 3 0 7).2.2
      TransferMode.copyT TransferMode.copyT (by decide) (by decide)⟩

/-- Claim C5: copy-assignment with `rhs.size ≤ this.capacity` (and not
self-assignment) does not reallocate: capacity is unchanged, afterwards the
contents equal `rhs` element-wise and the size equals `rhs.size`; if
`rhs.size ≥ this.size` exactly `this.size` elements are overwritten by
assignment and `rhs.size - this.size` copy-constructed, otherwise exactly
`rhs.size` are assigned and the trailing `this.size - rhs.size` destroyed. -/
theorem copyAssign_fits_spec (lhs rhs : Vec α) (h : rhs.size ≤ lhs.cap) :
    (copyAssign false lhs rhs).1.cap = lhs.cap ∧
    (copyAssign false lhs rhs).2.realloc = false ∧
    (copyAssign false lhs rhs).1.elems = rhs.elems ∧
    (copyAssign false lhs rhs).1.size = rhs.size ∧
    (lhs.size ≤ rhs.size →
      (copyAssign false lhs rhs).2 = ⟨lhs.size, rhs.size - lhs.size, 0, false⟩) ∧
    (rhs.size < lhs.size →
      (copyAssign false lhs rhs).2 = ⟨rhs.size, 0, lhs.size - rhs.size, false⟩) := by
  have hnr : ¬ rhs.size > lhs.cap := by omega
  by_cases h2 : rhs.size ≥ lhs.size
  · have hres : copyAssign false lhs rhs =
        (⟨rhs.elems.take lhs.size ++ rhs.elems.drop lhs.size, lhs.cap⟩,
          ⟨lhs.size, rhs.size - lhs.size, 0, false⟩) := by
      unfold copyAssign
      rw [if_neg Bool.false_ne_true, if_neg hnr, if_pos h2]
    rw [hres]
    refine ⟨rfl, rfl, List.take_append_drop _ _, ?_, fun _ => rfl,
      fun hlt => absurd h2 (by omega)⟩
    show (rhs.elems.take lhs.size ++ rhs.elems.drop lhs.size).length = rhs.size
    rw [List.take_append_drop]
    rfl
  · have hres : copyAssign false lhs rhs =
        (⟨rhs.elems.take rhs.size, lhs.cap⟩,
          ⟨rhs.size, 0, lhs.size - rhs.size, false⟩) := by
      unfold copyAssign
      rw [if_neg Bool.false_ne_true, if_neg hnr, if_neg h2]
    have hlen : rhs.elems.take rhs.size = rhs.elems := List.take_length rhs.elems
    rw [hres]
    refine ⟨rfl, rfl, hlen, ?_, fun hle => absurd hle h2, fun _ => rfl⟩
    show (rhs.elems.take rhs.size).length = rhs.size
    rw [hlen]
    rfl

/-- Witness for `copyAssign_fits_spec`: the spec's example — copy-assign a
3-element vector onto a 5-element vector with capacity 5. -/
theorem copyAssign_fits_spec_witness :
    (copyAssign false (⟨[1, 2, 3, 4, 5], 5⟩ : Vec Nat) ⟨[9, 8, 7], 3⟩).2 =
      ⟨(⟨[9, 8, 7], 3⟩ : Vec Nat).size, 0,
        (⟨[1, 2, 3, 4, 5], 5⟩ : Vec Nat).size - (⟨[9, 8, 7], 3⟩ : Vec Nat).size,
        false⟩ :=
  (copyAssign_fits_spec ⟨[1, 2, 3, 4, 5], 5⟩ ⟨[9, 8, 7], 3⟩ (by decide)).2.2.2.2.2
    (by decide)

/-- Claim C8: on a non-empty vector `PopBack` destroys the last live element
and decrements the size by exactly 1, leaving the first `size - 1` elements
unchanged; the `destroy` of the trailing slot executes unconditionally
(before the `size_ > 0` check), so on an empty vector it targets a slot
holding no live element. -/
theorem popBack_spec (v : Vec α) :
    (popBack v).destroyCalled = true ∧
    (0 < v.size →
      (popBack v).vec.elems = v.elems.take (v.size - 1) ∧
      (popBack v).vec.size = v.size - 1 ∧
      (popBack v).vec.cap = v.cap) ∧
    (v.size = 0 →
      (popBack v).destroyedSlotLive = false ∧ (popBack v).vec = v) := by
  refine ⟨rfl, ?_, ?_⟩
  · intro h
    have hres : (popBack v).vec = { v with elems := v.elems.dropLast } := by
      unfold popBack
      rw [if_pos h]
    rw [hres]
    refine ⟨List.dropLast_eq_take v.elems, ?_, rfl⟩
    show v.elems.dropLast.length = v.size - 1
    rw [List.length_dropLast]
    rfl
  · intro h
    have h' : ¬ 0 < v.size := by omega
    constructor
    · show decide (0 < v.size) = false
      simp [h]
    · unfold popBack
      rw [if_neg h']

/-- Witness for `popBack_spec` at a two-element vector and at the empty
vector. -/
theorem popBack_spec_witness :
    (popBack (⟨[5, 7], 2⟩ : Vec Nat)).vec.elems =
        ([5, 7] : List Nat).take ((⟨[5, 7], 2⟩ : Vec Nat).size - 1) ∧
    (popBack (emptyVec : Vec Nat)).destroyedSlotLive = false :=
  ⟨((popBack_spec ⟨[5, 7], 2⟩).2.1 (by decide)).1,
    ((popBack_spec (emptyVec : Vec Nat)).2.2 (by decide)).1⟩

/-- Claim C9: move-construction and move-assignment never fail (they are
total functions here, mirroring the `noexcept` bodies), leave the source
with `size = 0` and `capacity = 0`, and give the destination exactly the
source's prior elements, order, size and capacity. -/
theorem move_ops_spec (other lhs rhs : Vec α) :
    (moveConstruct other).1.elems = other.elems ∧
    (moveConstruct other).1.cap = other.cap ∧
    (moveConstruct other).2.size = 0 ∧
    (moveConstruct other).2.cap = 0 ∧
    (moveAssign lhs rhs).1.elems = rhs.elems ∧
    (moveAssign lhs rhs).1.cap = rhs.cap ∧
    (moveAssign lhs rhs).2.size = 0 ∧
    (moveAssign lhs rhs).2.cap = 0 :=
  ⟨rfl, rfl, rfl, rfl, rfl, rfl, rfl, rfl⟩

/-- Claim C10: self-copy-assignment (`this == &rhs`) leaves the vector
completely unchanged and performs zero element operations (no assignment, no
copy construction, no destruction, no reallocation). -/
theorem copyAssign_self_spec (v : Vec α) :
    copyAssign true v v = (v, ⟨0, 0, 0, false⟩) := rfl

lemma moveBackwardIdx_length [Inhabited α] (b : List α) (first last dlast : Nat) :
    (moveBackwardIdx b first last dlast).length = b.length := by
  simp [moveBackwardIdx]

lemma moveForwardIdx_length [Inhabited α] (b : List α) (first last dfirst : Nat) :
    (moveForwardIdx b first last dfirst).length = b.length := by
  simp [moveForwardIdx]

lemma moveBackwardIdx_getElem? [Inhabited α] (b : List α) (first last dlast i : Nat) :
    (moveBackwardIdx b first last dlast)[i]? =
      if i < b.length then
        some (if dlast - (last - first) ≤ i ∧ i < dlast
              then b.getD (i - (dlast - last)) default
              else b.getD i default)
      else none := by
  unfold moveBackwardIdx
  by_cases hi : i < b.length
  · rw [List.getElem?_map, List.getElem?_range hi, Option.map_some', if_pos hi]
  · rw [List.getElem?_map, List.getElem?_eq_none (by simpa using Nat.le_of_not_lt hi),
      if_neg hi]
    rfl

lemma moveForwardIdx_getElem? [Inhabited α] (b : List α) (first last dfirst i : Nat) :
    (moveForwardIdx b first last dfirst)[i]? =
      if i < b.length then
        some (if dfirst ≤ i ∧ i < dfirst + (last - first)
              then b.getD (i + (first - dfirst)) default
              else b.getD i default)
      else none := by
  unfold moveForwardIdx
  by_cases hi : i < b.length
  · rw [List.getElem?_map, List.getElem?_range hi, Option.map_some', if_pos hi]
  · rw [List.getElem?_map, List.getElem?_eq_none (by simpa using Nat.le_of_not_lt hi),
      if_neg hi]
    rfl

lemma getD_concat_small [Inhabited α] (b : List α) (e : α) (j : Nat) (h : j < b.length) :
    (b ++ [e]).getD j default = b.getD j default := by
  rw [List.getD_eq_getElem?_getD, List.getD_eq_getElem?_getD, List.getElem?_append_left h]

lemma getD_concat_last [Inhabited α] (b : List α) (e : α) :
    (b ++ [e]).getD b.length default = e := by
  rw [List.getD_eq_getElem?_getD, List.getElem?_append_right (Nat.le_refl _)]
  simp

lemma emplaceMid_eq [Inhabited α] (b : List α) (pos : Nat) (x : α) (h : pos < b.length) :
    emplaceMid b pos x = b.take pos ++ x :: b.drop pos := by
  have ht : (b.take pos).length = pos := by
    rw [List.length_take]
    exact Nat.min_eq_left (Nat.le_of_lt h)
  apply List.ext_getElem?
  intro i
  unfold emplaceMid
  have hb1 : (b ++ [b.getD (b.length - 1) default]).length = b.length + 1 := by simp
  rw [List.getElem?_set, moveBackwardIdx_length, hb1]
  by_cases hip : pos = i
  · subst hip
    rw [if_pos rfl, if_pos (show pos < b.length + 1 by omega),
      List.getElem?_append_right (show (b.take pos).length ≤ pos by rw [ht]),
      ht, Nat.sub_self, List.getElem?_cons, if_pos rfl]
  · rw [if_neg hip, moveBackwardIdx_getElem?, hb1]
    by_cases hin1 : i < b.length + 1
    · rw [if_pos hin1]
      by_cases hlt : i < pos
      · rw [if_neg (show ¬(b.length - (b.length - 1 - pos) ≤ i ∧ i < b.length) by omega),
          getD_concat_small b _ i (by omega),
          List.getElem?_append_left (show i < (b.take pos).length by rw [ht]; omega),
          List.getElem?_take, if_pos hlt,
          List.getD_eq_getElem b default (show i < b.length by omega),
          List.getElem?_eq_getElem (show i < b.length by omega)]
      · have hpi : pos < i := by omega
        rw [List.getElem?_append_right (show (b.take pos).length ≤ i by rw [ht]; omega),
          ht, List.getElem?_cons, if_neg (show ¬(i - pos = 0) by omega),
          List.getElem?_drop, (show pos + (i - pos - 1) = i - 1 by omega)]
        by_cases hin : i < b.length
        · rw [if_pos (show b.length - (b.length - 1 - pos) ≤ i ∧ i < b.length by omega),
            (show b.length - (b.length - 1) = 1 by omega),
            getD_concat_small b _ (i - 1) (by omega),
            List.getD_eq_getElem b default (show i - 1 < b.length by omega),
            List.getElem?_eq_getElem (show i - 1 < b.length by omega)]
        · have hieq : i = b.length := by omega
          subst hieq
          rw [if_neg (show ¬(b.length - (b.length - 1 - pos) ≤ b.length ∧
                b.length < b.length) by omega),
            getD_concat_last,
            List.getD_eq_getElem b default (show b.length - 1 < b.length by omega),
            List.getElem?_eq_getElem (show b.length - 1 < b.length by omega)]
    · rw [if_neg hin1,
        List.getElem?_eq_none (show (b.take pos ++ x :: b.drop pos).length ≤ i by
          rw [List.length_append, ht, List.length_cons, List.length_drop]; omega)]

lemma erase_elems_eq [Inhabited α] (v : Vec α) (pos : Nat) (h : pos < v.size) :
    (erase v pos).1.elems = v.elems.take pos ++ v.elems.drop (pos + 1) := by
  show (moveForwardIdx v.elems (pos + 1) v.size pos).take (v.size - 1) =
    v.elems.take pos ++ v.elems.drop (pos + 1)
  have hsz : v.size = v.elems.length := rfl
  rw [hsz] at h ⊢
  have ht : (v.elems.take pos).length = pos := by
    rw [List.length_take]
    exact Nat.min_eq_left (Nat.le_of_lt h)
  apply List.ext_getElem?
  intro i
  rw [List.getElem?_take]
  by_cases hi : i < v.elems.length - 1
  · rw [if_pos hi, moveForwardIdx_getElem?,
      if_pos (show i < v.elems.length by omega)]
    by_cases hlt : i < pos
    · rw [if_neg (show ¬(pos ≤ i ∧ i < pos + (v.elems.length - (pos + 1))) by omega),
        List.getElem?_append_left (show i < (v.elems.take pos).length by rw [ht]; omega),
        List.getElem?_take, if_pos hlt,
        List.getD_eq_getElem v.elems default (show i < v.elems.length by omega),
        List.getElem?_eq_getElem (show i < v.elems.length by omega)]
    · rw [if_pos (show pos ≤ i ∧ i < pos + (v.elems.length - (pos + 1)) by omega),
        (show i + (pos + 1 - pos) = i + 1 by omega),
        List.getElem?_append_right (show (v.elems.take pos).length ≤ i by rw [ht]; omega),
        ht, List.getElem?_drop, (show pos + 1 + (i - pos) = i + 1 by omega),
        List.getD_eq_getElem v.elems default (show i + 1 < v.elems.length by omega),
        List.getElem?_eq_getElem (show i + 1 < v.elems.length by omega)]
  · rw [if_neg hi,
      List.getElem?_eq_none (show (v.elems.take pos ++ v.elems.drop (pos + 1)).length ≤ i by
        rw [List.length_append, ht, List.length_drop]; omega)]

/-- Claim C6: for every valid position `pos` with `0 ≤ pos ≤ size`,
`Emplace(pos, x)` (and `Insert`, which delegates to it) yields the elements
`take pos ++ x :: drop pos` — the new element sits at index `pos` and the
relative order of all other elements is preserved — increases the size by
exactly 1, and returns the iterator `begin() + pos`. -/
theorem emplace_spec [Inhabited α] (v : Vec α) (pos : Nat) (x : α)
    (h : pos ≤ v.size) :
    (emplace v pos x).1.elems = v.elems.take pos ++ x :: v.elems.drop pos ∧
    (emplace v pos x).1.size = v.size + 1 ∧
    (emplace v pos x).1.elems.getD pos default = x ∧
    (emplace v pos x).2 = pos ∧
    insert v pos x = emplace v pos x := by
  have hsz : v.size = v.elems.length := rfl
  have ht : (v.elems.take pos).length = pos := by
    rw [List.length_take]
    exact Nat.min_eq_left h
  have hel : (emplace v pos x).1.elems = v.elems.take pos ++ x :: v.elems.drop pos := by
    unfold emplace
    by_cases h1 : v.cap > v.size
    · rw [if_pos h1]
      by_cases h2 : pos ≠ v.size
      · rw [if_pos h2]
        exact emplaceMid_eq v.elems pos x (by
          show pos < v.elems.length
          have h2' : pos ≠ v.size := h2
          omega)
      · rw [if_neg h2]
        have hpe : pos = v.size := by omega
        show (placeBackWithoutRealloc v x).elems = _
        unfold placeBackWithoutRealloc
        rw [if_pos (by omega), hpe]
        show v.elems ++ [x] = v.elems.take v.elems.length ++ x :: v.elems.drop v.elems.length
        rw [List.take_length, List.drop_length]
    · rw [if_neg h1]
      show (placeWithRealloc v pos x).elems = _
      unfold placeWithRealloc
      rw [if_pos (by omega)]
  refine ⟨hel, ?_, ?_, ?_, rfl⟩
  · show (emplace v pos x).1.elems.length = v.size + 1
    rw [hel, List.length_append, ht, List.length_cons, List.length_drop]
    omega
  · rw [hel, List.getD_eq_getElem?_getD,
      List.getElem?_append_right (show (v.elems.take pos).length ≤ pos by rw [ht]),
      ht, Nat.sub_self, List.getElem?_cons, if_pos rfl]
    rfl
  · unfold emplace
    by_cases h1 : v.cap > v.size
    · rw [if_pos h1]
      by_cases h2 : pos ≠ v.size
      · rw [if_pos h2]
      · rw [if_neg h2]
    · rw [if_neg h1]

/-- Witness for `emplace_spec`: the spec's example — `Insert(2, 99)` on
`[10, 20, 30, 40, 50]` (capacity 8). -/
theorem emplace_spec_witness :
    (emplace (⟨[10, 20, 30, 40, 50], 8⟩ : Vec Nat) 2 99).1.elems =
        ([10, 20, 30, 40, 50] : List Nat).take 2 ++ 99 :: ([10, 20, 30, 40, 50] : List Nat).drop 2 ∧
    (emplace (⟨[10, 20, 30, 40, 50], 8⟩ : Vec Nat) 2 99).2 = 2 :=
  ⟨(emplace_spec ⟨[10, 20, 30, 40, 50], 8⟩ 2 99 (by decide)).1,
    (emplace_spec ⟨[10, 20, 30, 40, 50], 8⟩ 2 99 (by decide)).2.2.2.1⟩

/-- Claim C7: for every valid position `pos < size`, `Erase(pos)` yields the
elements `take pos ++ drop (pos + 1)` — exactly the element at `pos` is
removed and the order of the rest preserved — decrements the size by 1,
leaves the capacity unchanged, and returns the iterator at index `pos`. -/
theorem erase_spec [Inhabited α] (v : Vec α) (pos : Nat) (h : pos < v.size) :
    (erase v pos).1.elems = v.elems.take pos ++ v.elems.drop (pos + 1) ∧
    (erase v pos).1.size = v.size - 1 ∧
    (erase v pos).1.cap = v.cap ∧
    (erase v pos).2 = pos := by
  refine ⟨erase_elems_eq v pos h, ?_, rfl, rfl⟩
  have hsz : v.size = v.elems.length := rfl
  show (erase v pos).1.elems.length = v.size - 1
  rw [erase_elems_eq v pos h, List.length_append, List.length_take,
    Nat.min_eq_left (show pos ≤ v.elems.length by omega), List.length_drop]
  omega

/-- Witness for `erase_spec`: the spec's example — `Erase(2)` on
`[10, 20, 99, 30, 40, 50]`. -/
theorem erase_spec_witness :
    (erase (⟨[10, 20, 99, 30, 40, 50], 8⟩ : Vec Nat) 2).1.elems =
        ([10, 20, 99, 30, 40, 50] : List Nat).take 2 ++
          ([10, 20, 99, 30, 40, 50] : List Nat).drop 3 ∧
    (erase (⟨[10, 20, 99, 30, 40, 50], 8⟩ : Vec Nat) 2).1.cap = 8 :=
  ⟨(erase_spec ⟨[10, 20, 99, 30, 40, 50], 8⟩ 2 (by decide)).1,
    (erase_spec ⟨[10, 20, 99, 30, 40, 50], 8⟩ 2 (by decide)).2.2.1⟩

/-- Claim C1: for a copyable element type whose move may fail (so transfer is
by copy), if a copy construction throws during a reallocating `Reserve` or
`PlaceWithRealloc` (the reallocating path of `EmplaceBack`/`Insert`/`Emplace`;
for `EmplaceBack`, `pos = size`), the exception propagates (`threw`), the
vector's externally observable state — size, capacity and every element —
is identical to its state before the call, every element constructed in the
new buffer (including the newly constructed one) has been destroyed, and the
new buffer's storage is released. -/
theorem realloc_copy_throw_spec (copyFn : α → Option α) (v : Vec α)
    (n pos : Nat) (x : α) :
    ((reserveCopyF copyFn v n).threw = true →
      (reserveCopyF copyFn v n).vec = v ∧
      ((reserveCopyF copyFn v n).newDestroyed).Perm
        ((reserveCopyF copyFn v n).newConstructed) ∧
      (reserveCopyF copyFn v n).newReleased = true) ∧
    ((placeWithReallocCopyF copyFn v pos x).threw = true →
      (placeWithReallocCopyF copyFn v pos x).vec = v ∧
      ((placeWithReallocCopyF copyFn v pos x).newDestroyed).Perm
        ((placeWithReallocCopyF copyFn v pos x).newConstructed) ∧
      (placeWithReallocCopyF copyFn v pos x).newReleased = true) := by
  constructor
  · unfold reserveCopyF
    by_cases h1 : n ≤ v.cap
    · rw [if_pos h1]
      intro ht
      exact absurd ht (by simp)
    · rw [if_neg h1]
      cases hc : uninitCopyN copyFn v.elems with
      | error ws =>
        intro _
        exact ⟨rfl, List.Perm.refl ws, rfl⟩
      | ok ys =>
        intro ht
        simp at ht
  · unfold placeWithReallocCopyF
    by_cases h1 : v.cap < v.size + 1
    · rw [if_pos h1]
      cases hc1 : uninitCopyN copyFn (v.elems.take pos) with
      | error ws =>
        intro _
        refine ⟨rfl, ?_, rfl⟩
        show (ws ++ [x]).Perm (x :: ws)
        exact List.perm_append_comm
      | ok hd =>
        cases hc2 : uninitCopyN copyFn (v.elems.drop pos) with
        | error ws =>
          intro _
          refine ⟨rfl, ?_, rfl⟩
          show ((ws ++ [x]) ++ hd).Perm (x :: (hd ++ ws))
          rw [List.append_assoc]
          refine (@List.perm_append_comm α ws ([x] ++ hd)).trans ?_
          rw [List.append_assoc]
          exact List.Perm.refl _
        | ok tl =>
          intro ht
          simp at ht
    · rw [if_neg h1]
      intro ht
      simp at ht

/-- Witness for `realloc_copy_throw_spec`: copying the value `7` throws; the
vector `[1, 7]` is full (capacity 2), so both a `Reserve(5)` and an
`Emplace` at the end reallocate and fail while copying the second element. -/
theorem realloc_copy_throw_spec_witness :
    ((reserveCopyF (fun y => if y = 7 then none else some y) (⟨[1, 7], 2⟩ : Vec Nat) 5).vec
        = ⟨[1, 7], 2⟩ ∧
      ((reserveCopyF (fun y => if y = 7 then none else some y) (⟨[1, 7], 2⟩ : Vec Nat) 5).newDestroyed).Perm
        ((reserveCopyF (fun y => if y = 7 then none else some y) (⟨[1, 7], 2⟩ : Vec Nat) 5).newConstructed) ∧
      (reserveCopyF (fun y => if y = 7 then none else some y) (⟨[1, 7], 2⟩ : Vec Nat) 5).newReleased = true) ∧
    ((placeWithReallocCopyF (fun y => if y = 7 then none else some y) (⟨[1, 7], 2⟩ : Vec Nat) 2 9).vec
        = ⟨[1, 7], 2⟩ ∧
      ((placeWithReallocCopyF (fun y => if y = 7 then none else some y) (⟨[1, 7], 2⟩ : Vec Nat) 2 9).newDestroyed).Perm
        ((placeWithReallocCopyF (fun y => if y = 7 then none else some y) (⟨[1, 7], 2⟩ : Vec Nat) 2 9).newConstructed) ∧
      (placeWithReallocCopyF (fun y => if y = 7 then none else some y) (⟨[1, 7], 2⟩ : Vec Nat) 2 9).newReleased = true) :=
  ⟨(realloc_copy_throw_spec (fun y => if y = 7 then none else some y)
      (⟨[1, 7], 2⟩ : Vec Nat) 5 2 9).1 (by decide),
    (realloc_copy_throw_spec (fun y => if y = 7 then none else some y)
      (⟨[1, 7], 2⟩ : Vec Nat) 5 2 9).2 (by decide)⟩

end AdvVec
